import Mathlib

namespace InvoiceApp

/-!
Verification of the charge-consolidation core of the invoice.app repository.

The Python source (src/invoice.app.py, src/packing_list_export.py) is shallowly
embedded here.  Numeric cells of the uploaded spreadsheet are modelled as exact
rationals (`ℚ`); a pandas `NaN` (missing value) is modelled by the `missing`
constructor of `Cell`, and the pandas skip-NaN aggregation semantics
(`Series.sum`, `DataFrame.max(axis=1)`) are modelled explicitly.  Python string
formatting (`f"{x:.2f}"`, `str(float)`) is modelled by executable renderers over
`ℚ`; the digits agree with Python on every input used in a theorem, and no
theorem below depends on more than the rendered string's decimal shape and the
absence of newline characters in it.
-/

/-! ## Characters, decimal rendering, and newline-joined fields -/

/-- The decimal digit character for `n < 10`. -/
def digitChar (n : Nat) : Char := Char.ofNat (48 + n)

/-- Fuel-driven base-10 rendering of a natural number (most significant digit
first).  Fuel `n + 1` always suffices. -/
def natCharsAux : Nat → Nat → List Char
  | 0, _ => []
  | fuel + 1, n =>
      if n < 10 then [digitChar n]
      else natCharsAux fuel (n / 10) ++ [digitChar (n % 10)]

/-- Base-10 rendering of a natural number. -/
def natChars (n : Nat) : List Char := natCharsAux (n + 1) n

/-- Python's `"\n".join` at the character-list level. -/
def joinNLCh : List (List Char) → List Char
  | [] => []
  | [p] => p
  | p :: q :: qs => p ++ '\n' :: joinNLCh (q :: qs)

/-- Python's `str.split("\n")` at the character-list level. -/
def splitNLCh : List Char → List (List Char)
  | [] => [[]]
  | c :: rest =>
      if c = '\n' then [] :: splitNLCh rest
      else
        match splitNLCh rest with
        | [] => [[c]]
        | p :: ps => (c :: p) :: ps

/-- `"\n".join` on strings (Python `"\n".join(column.astype(str))`). -/
def sJoinNL (l : List String) : String := String.mk (joinNLCh (l.map String.data))

/-- `s.split("\n")` on strings. -/
def sSplitNL (s : String) : List String := (splitNLCh s.data).map String.mk

/-- Number of `'\n'` characters in a string (Python `s.count("\n")`). -/
def countNL (s : String) : Nat := s.data.count '\n'

/-- A string contains a newline character. -/
def hasNL (s : String) : Bool := s.data.contains '\n'

/-! ## Decimal rendering (`str(float)` and `f"{x:.kf}"`) -/

/-- String of a natural number. -/
def sNat (n : Nat) : String := String.mk (natChars n)

/-- Characters of an integer. -/
def intChars (i : ℤ) : List Char := (if i < 0 then ['-'] else []) ++ natChars i.natAbs

/-- Fractional part characters: `v` printed with left zero-padding to `k` digits. -/
def fracChars (v k : Nat) : List Char :=
  List.replicate (k - (natChars v).length) '0' ++ natChars v

/-- Smallest `k ≤ 30` with `den ∣ 10^k`, if any: the denominator admits an exact
decimal expansion with `k` fractional digits. -/
def decExp (den : Nat) : Option Nat := (List.range 31).find? (fun k => (10 : Nat)^k % den = 0)

/-- Python's `str()` of a float, idealised over `ℚ`: the exact decimal expansion
with at least one fractional digit when the denominator divides a power of ten
(`str(2.0) = "2.0"`, `str(0.25) = "0.25"`), a `num/den` fallback otherwise.
Python prints the shortest decimal re-reading to the same binary float; no
theorem below depends on the digits, only on the absence of `'\n'`. -/
def decStr (q : ℚ) : String :=
  match decExp q.den with
  | some k0 =>
      String.mk ((if q.num < 0 then ['-'] else []) ++
        natChars ((q.num * (10 : ℤ)^(max k0 1)).natAbs / q.den / 10^(max k0 1)) ++
        '.' :: fracChars ((q.num * (10 : ℤ)^(max k0 1)).natAbs / q.den % 10^(max k0 1)) (max k0 1))
  | none => String.mk (intChars q.num ++ '/' :: natChars q.den)

/-- Round to the nearest integer, ties to even (the rounding used by Python's
fixed-point formatting). -/
def roundHalfEven (x : ℚ) : ℤ :=
  if x - ⌊x⌋ < 1/2 then ⌊x⌋
  else if (1 : ℚ)/2 < x - ⌊x⌋ then ⌊x⌋ + 1
  else if ⌊x⌋ % 2 = 0 then ⌊x⌋ else ⌊x⌋ + 1

/-- Python's `f"{x:.kf}"` fixed-point formatting, idealised over `ℚ`. -/
def fmtFixed (k : Nat) (x : ℚ) : String :=
  String.mk ((if roundHalfEven (x * (10 : ℚ)^k) < 0 then ['-'] else []) ++
    natChars ((roundHalfEven (x * (10 : ℚ)^k)).natAbs / 10^k) ++
    '.' :: fracChars ((roundHalfEven (x * (10 : ℚ)^k)).natAbs % 10^k) k)

/-- `f"{x:.2f}"`. -/
def fmt2 (x : ℚ) : String := fmtFixed 2 x

/-- `f"{x:.3f}"`. -/
def fmt3 (x : ℚ) : String := fmtFixed 3 x

/-! ## `_safe_float`: Python `float(x)` with fallback `0.0`
(src/packing_list_export.py lines 44-48).  The parser covers plain signed
decimals, the only shape the exporter ever feeds it. -/

/-- Decimal digit test. -/
def isDigitCh (c : Char) : Bool := 48 ≤ c.toNat && c.toNat ≤ 57

/-- Value of a digit character. -/
def digVal (c : Char) : Nat := c.toNat - 48

/-- Value of a digit string read most-significant first. -/
def digitsToNat (ds : List Char) : Nat := ds.foldl (fun a c => 10 * a + digVal c) 0

/-- Parse an unsigned decimal magnitude (`digits`, `digits.digits`, `.digits`,
`digits.`), `none` on anything else. -/
def parseDecMag (cs1 : List Char) : Option ℚ :=
  match cs1.dropWhile isDigitCh with
  | [] => if cs1.isEmpty then none else some (digitsToNat cs1)
  | '.' :: t =>
      if (t.dropWhile isDigitCh).isEmpty && !((cs1.takeWhile isDigitCh).isEmpty && t.isEmpty) then
        some ((digitsToNat (cs1.takeWhile isDigitCh) : ℚ) +
          (digitsToNat (t.takeWhile isDigitCh) : ℚ) / (10 : ℚ)^(t.takeWhile isDigitCh).length)
      else none
  | _ => none

/-- Parse a plain signed decimal, `none` on anything else. -/
def parseDec (cs : List Char) : Option ℚ :=
  match cs with
  | '-' :: t => (parseDecMag t).map (fun q => -q)
  | '+' :: t => parseDecMag t
  | _ => parseDecMag cs

/-- `_safe_float`: `float(x)` guarded by `try/except` returning `0.0`. -/
def safe_float (s : String) : ℚ := (parseDec s.data).getD 0

/-! ## Data model

One numeric spreadsheet cell: a float value or pandas `NaN` (missing). -/

inductive Cell where
  | num (q : ℚ)
  | missing
deriving DecidableEq, Inhabited

/-- `astype(float)` of one cell: `NaN` stays `NaN` (modelled `none`). -/
def Cell.toNum : Cell → Option ℚ
  | num q => some q
  | missing => none

/-- `astype(str)` of one cell: Python renders `NaN` as `"nan"`. -/
def Cell.pyStr : Cell → String
  | num q => decStr q
  | missing => "nan"

/-- The cell holds a number. -/
def Cell.isNum : Cell → Bool
  | num _ => true
  | missing => false

/-- One row of the uploaded spreadsheet, after `main` has filled the optional
columns (`PARKING CHARGES`, `PER CHARGES`, `Weight Rate`, `TRACKING NUMBER`,
`TERMS`) with their defaults and computed the per-row `CBM` column
(src/invoice.app.py lines 653-658 and 708-709). -/
structure Row where
  receiptNo : String
  mark : String
  description : String
  qty : Cell
  measCbm : Cell
  weightKg : Cell
  cbm : Cell
  contactNumber : String
  cargoNumber : String
  trackingNumber : String
  terms : String
  perCharges : ℚ
  parkingCharges : ℚ
  weightRate : ℚ
deriving DecidableEq, Inhabited

/-- The `st.session_state.global_defaults` dictionary:
`applied` flag plus the three optional rate values. -/
structure GlobalDefaults where
  applied : Bool
  perCharges : Option ℚ
  parkingCharges : Option ℚ
  weightRate : Option ℚ
deriving DecidableEq, Inhabited

/-- The dictionary appended per customer by `consolidate_data`
(src/invoice.app.py lines 357-376).  String fields carry the exact formatted
text; `totalChargesSum`, `calculatedCharges` and `numTotalCbm` carry the raw
floats the source stores unformatted. -/
structure Record where
  receiptNo : String
  qtyLines : String
  description : String
  cbmLines : String
  weightKgLines : String
  parkingChargesF : String
  perChargesF : String
  rateF : String
  weightRateF : String
  totalChargesF : String
  mark : String
  contactNumber : String
  cargoNumber : String
  trackingNumber : String
  terms : String
  totalQtyF : String
  totalCbmF : String
  totalChargesSum : ℚ
  flatRateApplied : String
  calculatedCharges : ℚ
  numTotalCbm : ℚ
deriving DecidableEq, Inhabited

/-! ## pandas skip-NaN aggregation -/

/-- `DataFrame.max(axis=1)` over two columns: `NaN` entries are skipped; the
result is `NaN` only when both entries are. -/
def maxSkipNA : Option ℚ → Option ℚ → Option ℚ
  | some a, some b => some (max a b)
  | some a, none => some a
  | none, b => b

/-- `Series.sum()` with the default `skipna=True`: `NaN` entries contribute
nothing; an all-`NaN` or empty series sums to `0.0`. -/
def sumSkipNA (l : List (Option ℚ)) : ℚ := (l.filterMap id).sum

/-! ## The consolidation engine (`consolidate_data`, src/invoice.app.py
lines 326-377; the file defines the function twice and this later definition
is the one Python keeps). -/

/-- `per_charge` for one customer group (line 334): the global default when
applied (falling back to the group's first row if the key is absent), else the
group's first row. -/
def group_per_charge (d : GlobalDefaults) (g : List Row) : ℚ :=
  if d.applied then d.perCharges.getD g.headI.perCharges else g.headI.perCharges

/-- `parking_charges` for one customer group (line 335). -/
def group_parking (d : GlobalDefaults) (g : List Row) : ℚ :=
  if d.applied then d.parkingCharges.getD g.headI.parkingCharges else g.headI.parkingCharges

/-- `weight_rate` for one customer group (line 336). -/
def group_weight_rate (d : GlobalDefaults) (g : List Row) : ℚ :=
  if d.applied then d.weightRate.getD g.headI.weightRate else g.headI.weightRate

/-- `group["Weight CBM"] = group["WEIGHT(KG)"].astype(float) / weight_rate`
(line 339), per row. -/
def weight_cbm (wr : ℚ) (r : Row) : Option ℚ := r.weightKg.toNum.map (fun w => w / wr)

/-- `group["Actual CBM"] = group[["MEAS.(CBM)", "Weight CBM"]].astype(float)
.max(axis=1)` (line 340), per row: the effective CBM. -/
def actual_cbm (wr : ℚ) (r : Row) : Option ℚ := maxSkipNA r.measCbm.toNum (weight_cbm wr r)

/-- `total_cbm = group["Actual CBM"].sum()` (line 341). -/
def total_cbm (wr : ℚ) (g : List Row) : ℚ := sumSkipNA (g.map (actual_cbm wr))

/-- `total_qty = group["QTY"].astype(float).sum()` (line 342). -/
def total_qty (g : List Row) : ℚ := sumSkipNA (g.map (fun r => r.qty.toNum))

/-- `calculated_charges` (lines 344-348): the 10.00 flat minimum below the
0.05 CBM threshold, otherwise `(group["Actual CBM"] * per_charge).sum()`. -/
def calculated_charges (d : GlobalDefaults) (g : List Row) : ℚ :=
  if total_cbm (group_weight_rate d g) g < 1/20 then 10
  else sumSkipNA (g.map (fun r =>
    (actual_cbm (group_weight_rate d g) r).map (fun c => c * group_per_charge d g)))

/-- `rate_applied` (lines 346 and 349). -/
def rate_applied (d : GlobalDefaults) (g : List Row) : ℚ :=
  if total_cbm (group_weight_rate d g) g < 1/20 then 10 else group_per_charge d g

/-- The record built for one customer group (lines 338-376). -/
def consolidate_group (d : GlobalDefaults) (customer : String) (g : List Row) : Record :=
  { receiptNo := sJoinNL (g.map (fun r => r.receiptNo))
    qtyLines := sJoinNL (g.map (fun r => r.qty.pyStr))
    description := sJoinNL (g.map (fun r => r.description))
    cbmLines := sJoinNL (g.map (fun r => r.cbm.pyStr))
    weightKgLines := sJoinNL (g.map (fun r => r.weightKg.pyStr))
    parkingChargesF := fmt2 (group_parking d g)
    perChargesF := fmt2 (rate_applied d g)
    rateF := fmt2 (rate_applied d g)
    weightRateF := fmt2 (group_weight_rate d g)
    totalChargesF := fmt2 (calculated_charges d g + group_parking d g)
    mark := customer
    contactNumber := g.headI.contactNumber
    cargoNumber := g.headI.cargoNumber
    trackingNumber := g.headI.trackingNumber
    terms := g.headI.terms
    totalQtyF := fmt2 (total_qty g)
    totalCbmF := fmt2 (total_cbm (group_weight_rate d g) g)
    totalChargesSum := calculated_charges d g + group_parking d g
    flatRateApplied := if total_cbm (group_weight_rate d g) g < 1/20 then "Yes" else "No"
    calculatedCharges := calculated_charges d g
    numTotalCbm := total_cbm (group_weight_rate d g) g }

/-- Lexicographic comparison of strings by code point, the order pandas uses
to sort string group keys. -/
def lexLt : List Char → List Char → Bool
  | [], [] => false
  | [], _ :: _ => true
  | _ :: _, [] => false
  | a :: as, b :: bs => a.toNat < b.toNat || (a = b && lexLt as bs)

/-- String order used by `df.groupby("MARK")` (pandas sorts keys ascending). -/
def strLt (a b : String) : Bool := lexLt a.data b.data

/-- Insert a mark into a sorted duplicate-free key list. -/
def insortKey (m : String) : List String → List String
  | [] => [m]
  | x :: xs =>
      if m = x then x :: xs
      else if strLt m x then m :: x :: xs
      else x :: insortKey m xs

/-- The group keys of `df.groupby("MARK")`: distinct marks in ascending order
(pandas' default `sort=True`). -/
def group_keys (rows : List Row) : List String :=
  rows.foldl (fun acc r => insortKey r.mark acc) []

/-- `df.groupby("MARK")`: each key paired with its rows in original order. -/
def group_by_mark (rows : List Row) : List (String × List Row) :=
  (group_keys rows).map (fun m => (m, rows.filter (fun r => r.mark = m)))

/-- `consolidate_data` (src/invoice.app.py lines 326-377): one record per
distinct `MARK`, in the key order produced by `df.groupby("MARK")`. -/
def consolidate_data (d : GlobalDefaults) (rows : List Row) : List Record :=
  (group_by_mark rows).map (fun p => consolidate_group d p.1 p.2)

/-! ## The caller-side preprocessing in `main` -/

/-- `df["Weight Rate"] = df["Weight Rate"].replace(0, 1.0)`
(src/invoice.app.py lines 661-662). -/
def replace_zero_weight_rate (rows : List Row) : List Row :=
  rows.map (fun r => if r.weightRate = 0 then { r with weightRate := 1 } else r)

/-- `df["Weight CBM"] = df["WEIGHT(KG)"] / df["Weight Rate"]; df["CBM"] =
df[["MEAS.(CBM)", "Weight CBM"]].max(axis=1)` (lines 708-709): the per-row CBM
column computed with each row's own weight rate. -/
def add_cbm_column (rows : List Row) : List Row :=
  rows.map (fun r =>
    { r with cbm :=
        match maxSkipNA r.measCbm.toNum (r.weightKg.toNum.map (fun w => w / r.weightRate)) with
        | some q => Cell.num q
        | none => Cell.missing })

/-! ## The packing-list export
(`export_custom_packing_list`, src/packing_list_export.py lines 51-164).
The worksheet is modelled as the ordered list of appended data rows (header and
styling dropped): item rows carry the exact cell strings; subtotal and grand
rows carry the accumulated float values that the source renders with
`f"{v:.2f}"` / `f"{v:.3f}"`.  `none` models the `IndexError` the source raises
when a multi-line `CBM` field has fewer lines than `RECEIPT NO.`. -/

structure PLItem where
  receiptNo : String
  mark : String
  description : String
  qty : String
  meas : String
  weightKg : String
  weightRateF : String
  weightCbmF : String
  cbm : String
  perCharges : String
  totalCharges : String
  contact : String
  supplier : String
deriving DecidableEq, Inhabited

inductive PLEntry where
  | item (it : PLItem)
  | subtotal (mark : String) (qty meas weight cbm charges : ℚ)
  | grand (qty meas weight cbm charges : ℚ)
deriving DecidableEq, Inhabited

/-- Sequence a list of options, failing on the first `none`. -/
def seqOpt {α : Type} : List (Option α) → Option (List α)
  | [] => some []
  | none :: _ => none
  | some a :: t => (seqOpt t).map (fun l => a :: l)

/-- Python's `a or b` on strings: `b` when `a` is empty. -/
def pyOrElse (a b : String) : String := if a = "" then b else a

/-- `weight_rate = _safe_float(g.get("WEIGHT RATE", 0))` (line 96).  The
consolidated frame has no `"WEIGHT RATE"` column (its column is spelled
`"Weight Rate"`), so the export's own fill-in loop (lines 79-81) made the value
`""` and the parsed rate is always `0.0`. -/
def pl_weight_rate (_g : Record) : ℚ := safe_float ""

/-- The `CBM` cell of item `i` (line 108): split only when the field is
multi-line, and indexed without a bounds guard — `none` models the
`IndexError`. -/
def item_cell_cbm (cbm : String) (i : Nat) : Option String :=
  if hasNL cbm then (sSplitNL cbm).get? i else some cbm

/-- The `WEIGHT CBM` cell of item `i` (line 107): empty when `weight_rate` is
falsy, otherwise `weights[i]` (unguarded) parsed and divided. -/
def item_weight_cbm (weights : List String) (wr : ℚ) (i : Nat) : Option String :=
  if wr = 0 then some "" else (weights.get? i).map (fun w => fmt3 (safe_float w / wr))

/-- Item row `i` of one consolidated record (lines 88-112). -/
def item_at (customer : String) (g : Record) (i : Nat) : Option PLItem :=
  (item_cell_cbm g.cbmLines i).bind (fun cbmv =>
    (item_weight_cbm (sSplitNL g.weightKgLines) (pl_weight_rate g) i).map (fun wcbm =>
      { receiptNo := (sSplitNL g.receiptNo).getD i ""
        mark := if i = 0 then customer else ""
        description := (sSplitNL g.description).getD i ""
        qty := (sSplitNL g.qtyLines).getD i ""
        meas := (sSplitNL (pyOrElse "" g.cbmLines)).getD i ""
        weightKg := (sSplitNL g.weightKgLines).getD i ""
        weightRateF := if i = 0 then fmt2 (pl_weight_rate g) else ""
        weightCbmF := wcbm
        cbm := cbmv
        perCharges := if i = 0 then g.perChargesF else ""
        totalCharges := if i = 0 then g.totalChargesF else ""
        contact := if i = 0 then g.contactNumber else ""
        supplier := "" }))

/-- The `num_items = str(...).count("\n") + 1` item rows of one record
(lines 89 and 98). -/
def items_of_record (customer : String) (g : Record) : Option (List PLItem) :=
  seqOpt ((List.range (countNL g.receiptNo + 1)).map (item_at customer g))

/-- Column accumulations over item rows (`_safe_float` of the cell text,
lines 117-118 and 124-126). -/
def sum_qty (items : List PLItem) : ℚ := (items.map (fun it => safe_float it.qty)).sum

def sum_meas (items : List PLItem) : ℚ := (items.map (fun it => safe_float it.meas)).sum

def sum_weight (items : List PLItem) : ℚ := (items.map (fun it => safe_float it.weightKg)).sum

def sum_cbm (items : List PLItem) : ℚ := (items.map (fun it => safe_float it.cbm)).sum

def sum_charges (items : List PLItem) : ℚ :=
  (items.map (fun it => safe_float it.totalCharges)).sum

/-- Keys of `work_df.groupby("MARK", sort=False)` (line 84): first-seen order. -/
def keys_first_seen (recs : List Record) : List String :=
  recs.foldl (fun acc r => if acc.contains r.mark then acc else acc ++ [r.mark]) []

/-- `work_df.groupby("MARK", sort=False)` over consolidated records. -/
def group_recs_by_mark (recs : List Record) : List (String × List Record) :=
  (keys_first_seen recs).map (fun m => (m, recs.filter (fun r => r.mark = m)))

/-- Rows appended for one customer: its item rows, then a subtotal row exactly
when there is more than one item row (lines 114-141). -/
def group_entries (m : String) (rs : List Record) : Option (List PLEntry) :=
  (seqOpt (rs.map (items_of_record m))).map (fun ls =>
    (ls.flatten.map PLEntry.item) ++
      (if 1 < ls.flatten.length then
        [PLEntry.subtotal m (sum_qty ls.flatten) (sum_meas ls.flatten) (sum_weight ls.flatten)
          (sum_cbm ls.flatten) (sum_charges ls.flatten)]
      else []))

/-- All customer blocks in groupby order. -/
def pl_body (recs : List Record) : Option (List PLEntry) :=
  (seqOpt ((group_recs_by_mark recs).map (fun p => group_entries p.1 p.2))).map List.flatten

/-- The item rows among a list of appended rows. -/
def items_of (es : List PLEntry) : List PLItem :=
  es.filterMap (fun e => match e with | .item it => some it | _ => none)

/-- The grand-total row (lines 143-150): each numeric column is the running
total accumulated over every item row written. -/
def grand_of (items : List PLItem) : PLEntry :=
  .grand (sum_qty items) (sum_meas items) (sum_weight items) (sum_cbm items) (sum_charges items)

/-- `export_custom_packing_list`: the customer blocks followed by one
grand-total row. -/
def export_custom_packing_list (recs : List Record) : Option (List PLEntry) :=
  (pl_body recs).map (fun b => b ++ [grand_of (items_of b)])

/-! ## Order facts about the groupby key list -/

/-- The strict string order as a proposition. -/
def strLtP (a b : String) : Prop := strLt a b = true

/-! ## Auxiliary definitions used by the claim statements -/

/-- Replace the rate-and-contact fields `consolidate_data` reads only from
the first row of a group; used to state that later rows' values are ignored. -/
def scrub_rates (r : Row) : Row :=
  { r with
    perCharges := 0
    parkingCharges := 0
    weightRate := 0
    contactNumber := ""
    cargoNumber := ""
    trackingNumber := ""
    terms := "" }

/-- Replace a missing cell by the number `0`. -/
def fillZeroCell (c : Cell) : Cell :=
  match c with
  | .num q => .num q
  | .missing => .num 0

/-- Replace the missing numeric cells of a row by `0`. -/
def fill_zero_row (r : Row) : Row :=
  { r with
    qty := fillZeroCell r.qty
    measCbm := fillZeroCell r.measCbm
    weightKg := fillZeroCell r.weightKg }

/-- A numeric cell is nonnegative (vacuous for a missing cell). -/
def cellNonneg : Cell → Prop
  | .num q => 0 ≤ q
  | .missing => True

/-- Session state before any `Apply Global Settings` click. -/
def defaultsOff : GlobalDefaults :=
  { applied := false, perCharges := none, parkingCharges := none, weightRate := none }

/-- The closed form of item row `i` that the export produces for the
consolidated record of customer `m` with constituent rows `g` (newline-free
projections assumed): line `i` of every multi-line field, the customer mark,
rate, total charges and contact only on the first row, the `WEIGHT RATE`
column showing the parse of the absent `"WEIGHT RATE"` column (0.00 on the
first row) and hence an empty `WEIGHT CBM`. -/
def expected_item (d : GlobalDefaults) (m : String) (g : List Row) (i : Nat) : PLItem :=
  { receiptNo := (g.map (fun r => r.receiptNo)).getD i ""
    mark := if i = 0 then m else ""
    description := (g.map (fun r => r.description)).getD i ""
    qty := (g.map (fun r => r.qty.pyStr)).getD i ""
    meas := (g.map (fun r => r.cbm.pyStr)).getD i ""
    weightKg := (g.map (fun r => r.weightKg.pyStr)).getD i ""
    weightRateF := if i = 0 then fmt2 (safe_float "") else ""
    weightCbmF := ""
    cbm := (g.map (fun r => r.cbm.pyStr)).getD i ""
    perCharges := if i = 0 then (consolidate_group d m g).perChargesF else ""
    totalCharges := if i = 0 then (consolidate_group d m g).totalChargesF else ""
    contact := if i = 0 then (consolidate_group d m g).contactNumber else ""
    supplier := "" }

/-- The closed form of the rows the export appends for one customer: its item
rows followed by a subtotal row exactly when there is more than one item. -/
def expected_block (d : GlobalDefaults) (m : String) (g : List Row) : List PLEntry :=
  ((List.range g.length).map (expected_item d m g)).map PLEntry.item ++
    (if 1 < ((List.range g.length).map (expected_item d m g)).length then
      [PLEntry.subtotal m
        (sum_qty ((List.range g.length).map (expected_item d m g)))
        (sum_meas ((List.range g.length).map (expected_item d m g)))
        (sum_weight ((List.range g.length).map (expected_item d m g)))
        (sum_cbm ((List.range g.length).map (expected_item d m g)))
        (sum_charges ((List.range g.length).map (expected_item d m g)))]
    else [])

/-- A concrete sample row used by witnesses. -/
def rowBase : Row :=
  { receiptNo := "R1", mark := "M", description := "goods",
    qty := Cell.num 1, measCbm := Cell.num 0, weightKg := Cell.num 10,
    cbm := Cell.num 2, contactNumber := "077", cargoNumber := "C1",
    trackingNumber := "T1", terms := "NET", perCharges := 50,
    parkingCharges := 0, weightRate := 5 }

/-- A sample row whose receipt number contains a newline character and whose
numeric cells are missing. -/
def rowNLCex : Row :=
  { rowBase with
    receiptNo := "A\nB"
    qty := Cell.missing
    measCbm := Cell.missing
    weightKg := Cell.missing
    cbm := Cell.missing }

/-! ## Lemmas and theorems -/

theorem digitChar_ne_newline (k : Nat) (hk : k < 10) : digitChar k ≠ '\n' := by
  interval_cases k <;> decide

theorem natCharsAux_ne_newline (fuel n : Nat) : '\n' ∉ natCharsAux fuel n := by
  induction fuel generalizing n with
  | zero => simp [natCharsAux]
  | succ fuel ih =>
      by_cases h : n < 10
      · simp only [natCharsAux, if_pos h, List.mem_singleton]
        exact fun hc => digitChar_ne_newline n h hc.symm
      · simp only [natCharsAux, if_neg h, List.mem_append, List.mem_singleton]
        rintro (hc | hc)
        · exact ih _ hc
        · exact digitChar_ne_newline (n % 10) (Nat.mod_lt _ (by norm_num)) hc.symm

theorem natChars_ne_newline (n : Nat) : '\n' ∉ natChars n := natCharsAux_ne_newline _ _

theorem splitNLCh_ne_nil (cs : List Char) : splitNLCh cs ≠ [] := by
  cases cs with
  | nil => simp [splitNLCh]
  | cons c rest =>
      by_cases h : c = '\n'
      · simp [splitNLCh, h]
      · simp only [splitNLCh, if_neg h]
        cases splitNLCh rest <;> simp

theorem splitNLCh_no_newline (cs : List Char) (h : '\n' ∉ cs) : splitNLCh cs = [cs] := by
  induction cs with
  | nil => rfl
  | cons c rest ih =>
      simp only [List.mem_cons, not_or] at h
      have hc : ¬(c = '\n') := fun hc => h.1 hc.symm
      simp only [splitNLCh, if_neg hc, ih h.2]

theorem splitNLCh_append (p t : List Char) (h : '\n' ∉ p) :
    splitNLCh (p ++ '\n' :: t) = p :: splitNLCh t := by
  induction p with
  | nil => simp [splitNLCh]
  | cons c p ih =>
      simp only [List.mem_cons, not_or] at h
      have hc : ¬(c = '\n') := fun hc => h.1 hc.symm
      simp only [List.cons_append, splitNLCh, if_neg hc, List.append_eq]
      rw [ih h.2]

/-- Splitting a newline-join recovers the parts, provided each part is
newline-free. -/
theorem splitNLCh_joinNLCh (parts : List (List Char)) (hne : parts ≠ [])
    (h : ∀ p ∈ parts, '\n' ∉ p) : splitNLCh (joinNLCh parts) = parts := by
  induction parts with
  | nil => exact absurd rfl hne
  | cons p ps ih =>
      cases ps with
      | nil =>
          simp only [joinNLCh]
          exact splitNLCh_no_newline p (h p (by simp))
      | cons q qs =>
          show splitNLCh (p ++ '\n' :: joinNLCh (q :: qs)) = p :: q :: qs
          rw [splitNLCh_append p _ (h p (by simp))]
          rw [ih (by simp) (fun r hr => h r (List.mem_cons_of_mem _ hr))]

theorem count_newline_joinNLCh (parts : List (List Char)) (hne : parts ≠ [])
    (h : ∀ p ∈ parts, '\n' ∉ p) :
    (joinNLCh parts).count '\n' = parts.length - 1 := by
  induction parts with
  | nil => exact absurd rfl hne
  | cons p ps ih =>
      cases ps with
      | nil =>
          simp only [joinNLCh, List.length_cons, List.length_nil, Nat.add_sub_cancel]
          exact List.count_eq_zero.mpr (h p (by simp))
      | cons q qs =>
          show (p ++ '\n' :: joinNLCh (q :: qs)).count '\n' = (p :: q :: qs).length - 1
          rw [List.count_append]
          rw [List.count_eq_zero.mpr (h p (by simp))]
          rw [List.count_cons_self]
          rw [ih (by simp) (fun r hr => h r (List.mem_cons_of_mem _ hr))]
          simp only [List.length_cons]
          omega

theorem hasNL_iff (s : String) : hasNL s = true ↔ '\n' ∈ s.data := by
  simp [hasNL, List.contains]

theorem sSplitNL_sJoinNL (l : List String) (hne : l ≠ [])
    (h : ∀ s ∈ l, hasNL s = false) : sSplitNL (sJoinNL l) = l := by
  unfold sSplitNL sJoinNL
  have hdata : ∀ p ∈ l.map String.data, '\n' ∉ p := by
    intro p hp
    obtain ⟨s, hs, rfl⟩ := List.mem_map.mp hp
    intro hmem
    have := (hasNL_iff s).mpr hmem
    rw [h s hs] at this
    exact Bool.false_ne_true this
  rw [splitNLCh_joinNLCh (l.map String.data) (by simpa using hne) hdata]
  rw [List.map_map]
  have : (String.mk ∘ String.data) = id := by
    funext s
    rfl
  rw [this, List.map_id]

theorem countNL_sJoinNL (l : List String) (hne : l ≠ [])
    (h : ∀ s ∈ l, hasNL s = false) : countNL (sJoinNL l) = l.length - 1 := by
  unfold countNL sJoinNL
  have hdata : ∀ p ∈ l.map String.data, '\n' ∉ p := by
    intro p hp
    obtain ⟨s, hs, rfl⟩ := List.mem_map.mp hp
    intro hmem
    have := (hasNL_iff s).mpr hmem
    rw [h s hs] at this
    exact Bool.false_ne_true this
  rw [count_newline_joinNLCh (l.map String.data) (by simpa using hne) hdata]
  simp

theorem noNL_sign (P : Prop) [Decidable P] : '\n' ∉ (if P then ['-'] else []) := by
  split <;> decide

theorem hasNL_fracChars (v k : Nat) : '\n' ∉ fracChars v k := by
  unfold fracChars
  intro hm
  rcases List.mem_append.mp hm with hr | hn
  · exact absurd (List.eq_of_mem_replicate hr) (by decide)
  · exact natChars_ne_newline v hn

theorem hasNL_decStr (q : ℚ) : hasNL (decStr q) = false := by
  rw [Bool.eq_false_iff]
  intro hmem
  rw [hasNL_iff] at hmem
  unfold decStr at hmem
  rcases hd : decExp q.den with _ | k0 <;> rw [hd] at hmem
  · rcases List.mem_append.mp hmem with hm | hm
    · unfold intChars at hm
      rcases List.mem_append.mp hm with hs | hn
      · exact noNL_sign _ hs
      · exact natChars_ne_newline _ hn
    · rcases List.mem_cons.mp hm with he | hn
      · exact absurd he (by decide)
      · exact natChars_ne_newline _ hn
  · rcases List.mem_append.mp hmem with hm | hm2
    · rcases List.mem_append.mp hm with hs | hn
      · exact noNL_sign _ hs
      · exact natChars_ne_newline _ hn
    · rcases List.mem_cons.mp hm2 with he | hf
      · exact absurd he (by decide)
      · exact hasNL_fracChars _ _ hf

theorem hasNL_fmtFixed (k : Nat) (x : ℚ) : hasNL (fmtFixed k x) = false := by
  rw [Bool.eq_false_iff]
  intro hmem
  rw [hasNL_iff] at hmem
  unfold fmtFixed at hmem
  rcases List.mem_append.mp hmem with hm | hm2
  · rcases List.mem_append.mp hm with hs | hn
    · exact noNL_sign _ hs
    · exact natChars_ne_newline _ hn
  · rcases List.mem_cons.mp hm2 with he | hf
    · exact absurd he (by decide)
    · exact hasNL_fracChars _ _ hf

theorem hasNL_pyStr (c : Cell) : hasNL c.pyStr = false := by
  cases c with
  | num q => exact hasNL_decStr q
  | missing => decide

theorem sumSkipNA_eq_sum_getD (l : List (Option ℚ)) :
    sumSkipNA l = (l.map (fun o => o.getD 0)).sum := by
  induction l with
  | nil => rfl
  | cons o t ih =>
      cases o with
      | none => simpa [sumSkipNA, List.filterMap_cons] using ih
      | some a =>
          simp only [sumSkipNA, List.filterMap_cons, List.map_cons, List.sum_cons,
            Option.getD_some, id] at ih ⊢
          rw [ih]

theorem charToNat_inj {a b : Char} (h : a.toNat = b.toNat) : a = b :=
  Char.ext (UInt32.ext h)

theorem lexLt_trans : ∀ (a b c : List Char),
    lexLt a b = true → lexLt b c = true → lexLt a c = true := by
  intro a
  induction a with
  | nil =>
      intro b c hab hbc
      cases b with
      | nil => simp [lexLt] at hab
      | cons y ys =>
          cases c with
          | nil => simp [lexLt] at hbc
          | cons z zs => simp [lexLt]
  | cons x xs ih =>
      intro b c hab hbc
      cases b with
      | nil => simp [lexLt] at hab
      | cons y ys =>
          cases c with
          | nil => simp [lexLt] at hbc
          | cons z zs =>
              simp only [lexLt, Bool.or_eq_true, Bool.and_eq_true,
                decide_eq_true_eq] at hab hbc ⊢
              rcases hab with h1 | ⟨hxy, h2⟩
              · rcases hbc with h3 | ⟨hyz, h4⟩
                · exact Or.inl (Nat.lt_trans h1 h3)
                · subst hyz
                  exact Or.inl h1
              · subst hxy
                rcases hbc with h3 | ⟨hyz, h4⟩
                · exact Or.inl h3
                · subst hyz
                  exact Or.inr ⟨rfl, ih ys zs h2 h4⟩

theorem lexLt_irrefl : ∀ (a : List Char), lexLt a a = false := by
  intro a
  induction a with
  | nil => rfl
  | cons x xs ih => simp [lexLt, ih]

theorem lexLt_total : ∀ (a b : List Char), a ≠ b → lexLt a b = true ∨ lexLt b a = true := by
  intro a
  induction a with
  | nil =>
      intro b hne
      cases b with
      | nil => exact absurd rfl hne
      | cons y ys => exact Or.inl (by simp [lexLt])
  | cons x xs ih =>
      intro b hne
      cases b with
      | nil => exact Or.inr (by simp [lexLt])
      | cons y ys =>
          by_cases hxy : x = y
          · subst hxy
            have htl : xs ≠ ys := fun he => hne (by rw [he])
            rcases ih ys htl with h | h
            · exact Or.inl (by simp [lexLt, h])
            · exact Or.inr (by simp [lexLt, h])
          · have hton : x.toNat ≠ y.toNat := fun he => hxy (charToNat_inj he)
            rcases Nat.lt_or_ge x.toNat y.toNat with h | h
            · exact Or.inl (by simp [lexLt, h])
            · have h2 : y.toNat < x.toNat := Nat.lt_of_le_of_ne h (fun he => hton he.symm)
              exact Or.inr (by simp [lexLt, h2])

theorem strLtP_trans {a b c : String} (h1 : strLtP a b) (h2 : strLtP b c) : strLtP a c :=
  lexLt_trans a.data b.data c.data h1 h2

theorem strLtP_ne {a b : String} (h : strLtP a b) : a ≠ b := by
  intro he
  subst he
  have := lexLt_irrefl a.data
  unfold strLtP strLt at h
  rw [this] at h
  exact Bool.false_ne_true h

theorem strLtP_total {a b : String} (h : a ≠ b) : strLtP a b ∨ strLtP b a := by
  have hd : a.data ≠ b.data := by
    intro he
    exact h (congrArg String.mk he)
  exact lexLt_total a.data b.data hd

theorem mem_insortKey (x m : String) (l : List String) :
    x ∈ insortKey m l ↔ x = m ∨ x ∈ l := by
  induction l with
  | nil => simp [insortKey]
  | cons y ys ih =>
      by_cases h1 : m = y
      · subst h1
        simp only [insortKey, if_pos rfl]
        constructor
        · intro hx
          exact Or.inr hx
        · rintro (hx | hx)
          · subst hx
            exact List.mem_cons_self _ _
          · exact hx
      · simp only [insortKey, if_neg h1]
        by_cases h2 : strLt m y
        · simp [h2, List.mem_cons, or_comm, or_left_comm]
        · simp only [Bool.not_eq_true] at h2
          simp [h2, List.mem_cons, ih, or_left_comm]

theorem pairwise_insortKey (m : String) (l : List String)
    (hp : l.Pairwise strLtP) : (insortKey m l).Pairwise strLtP := by
  induction l with
  | nil => simp [insortKey]
  | cons y ys ih =>
      rcases List.pairwise_cons.mp hp with ⟨hy, hys⟩
      by_cases h1 : m = y
      · subst h1
        simpa [insortKey] using hp
      · simp only [insortKey, if_neg h1]
        by_cases h2 : strLt m y
        · rw [if_pos h2]
          refine List.pairwise_cons.mpr ⟨?_, hp⟩
          intro z hz
          rcases List.mem_cons.mp hz with hz | hz
          · subst hz
            exact h2
          · exact strLtP_trans h2 (hy z hz)
        · rw [if_neg h2]
          refine List.pairwise_cons.mpr ⟨?_, ih hys⟩
          intro z hz
          rcases (mem_insortKey z m ys).mp hz with hz | hz
          · subst hz
            rcases strLtP_total h1 with h | h
            · exact absurd h h2
            · exact h
          · exact hy z hz

theorem group_keys_spec (rows : List Row) :
    (group_keys rows).Pairwise strLtP ∧
      ∀ m, m ∈ group_keys rows ↔ m ∈ rows.map (fun r => r.mark) := by
  unfold group_keys
  suffices h : ∀ (l : List Row) (acc : List String), acc.Pairwise strLtP →
      (l.foldl (fun a r => insortKey r.mark a) acc).Pairwise strLtP ∧
        ∀ m, m ∈ l.foldl (fun a r => insortKey r.mark a) acc ↔
          m ∈ acc ∨ m ∈ l.map (fun r => r.mark) by
    rcases h rows [] List.Pairwise.nil with ⟨h1, h2⟩
    exact ⟨h1, fun m => by simpa using h2 m⟩
  intro l
  induction l with
  | nil => exact fun acc hacc => ⟨hacc, by simp⟩
  | cons r rs ih =>
      intro acc hacc
      rcases ih (insortKey r.mark acc) (pairwise_insortKey _ _ hacc) with ⟨h1, h2⟩
      refine ⟨h1, fun m => ?_⟩
      simp only [List.foldl_cons, List.map_cons, List.mem_cons]
      rw [h2 m, mem_insortKey]
      tauto

theorem group_keys_pairwise (rows : List Row) : (group_keys rows).Pairwise strLtP :=
  (group_keys_spec rows).1

theorem group_keys_mem (rows : List Row) (m : String) :
    m ∈ group_keys rows ↔ m ∈ rows.map (fun r => r.mark) :=
  (group_keys_spec rows).2 m

theorem group_keys_nodup (rows : List Row) : (group_keys rows).Nodup :=
  (group_keys_pairwise rows).imp (fun h => strLtP_ne h)

/-- Every group produced by `group_by_mark` is nonempty. -/
theorem group_nonempty (rows : List Row) (p : String × List Row)
    (hp : p ∈ group_by_mark rows) : p.2 ≠ [] := by
  unfold group_by_mark at hp
  rcases List.mem_map.mp hp with ⟨m, hm, rfl⟩
  rcases List.mem_map.mp ((group_keys_mem rows m).mp hm) with ⟨r, hr, hrm⟩
  intro he
  have he2 : rows.filter (fun x => x.mark = m) = [] := he
  have hmem : r ∈ rows.filter (fun x => x.mark = m) :=
    List.mem_filter.mpr ⟨hr, by simp [hrm]⟩
  rw [he2] at hmem
  exact List.not_mem_nil r hmem

/-- Summing the group sizes over the distinct keys recovers the row count. -/
theorem sum_group_sizes (rows : List Row) :
    ((group_by_mark rows).map (fun p => p.2.length)).sum = rows.length := by
  unfold group_by_mark
  rw [List.map_map]
  suffices h : ∀ (l : List Row) (keys : List String), keys.Nodup →
      (∀ r ∈ l, r.mark ∈ keys) →
      (keys.map (fun m => (l.filter (fun x => x.mark = m)).length)).sum = l.length by
    exact h rows (group_keys rows) (group_keys_nodup rows)
      (fun r hr => (group_keys_mem rows r.mark).mpr (List.mem_map_of_mem _ hr))
  intro l
  induction l with
  | nil => simp
  | cons r rs ih =>
      intro keys hnd hcov
      have haux : ∀ (ks : List String),
          (ks.map (fun m => ((r :: rs).filter (fun x => x.mark = m)).length)).sum =
            (ks.map (fun m => (rs.filter (fun x => x.mark = m)).length)).sum +
              ks.count r.mark := by
        intro ks
        induction ks with
        | nil => simp
        | cons k kt ihk =>
            have hf : ((r :: rs).filter (fun x => x.mark = k)).length =
                (rs.filter (fun x => x.mark = k)).length + (if r.mark = k then 1 else 0) := by
              by_cases hk : r.mark = k <;> simp [List.filter_cons, hk]
            have hc : List.count r.mark (k :: kt) =
                List.count r.mark kt + (if r.mark = k then 1 else 0) := by
              by_cases hk : r.mark = k <;> simp [List.count_cons, hk]
            simp only [List.map_cons, List.sum_cons, ihk, hf, hc]
            omega
      rw [haux keys]
      rw [ih keys hnd (fun x hx => hcov x (List.mem_cons_of_mem _ hx))]
      rw [List.count_eq_one_of_mem hnd (hcov r (List.mem_cons_self _ _))]
      simp

/-- Distributing a constant multiplication over a skip-NaN sum. -/
theorem sumSkipNA_map_mul (l : List (Option ℚ)) (c : ℚ) :
    sumSkipNA (l.map (fun o => o.map (fun x => x * c))) = sumSkipNA l * c := by
  induction l with
  | nil => simp [sumSkipNA]
  | cons o t ih =>
      cases o with
      | none => simpa [sumSkipNA, List.filterMap_cons] using ih
      | some a =>
          simp only [sumSkipNA, List.map_cons, List.filterMap_cons, id, Option.map_some',
            List.sum_cons] at ih ⊢
          rw [ih]
          ring

/-- The head of a nonempty list is a member. -/
theorem headI_mem_of_ne_nil {α : Type} [Inhabited α] (l : List α) (h : l ≠ []) :
    l.headI ∈ l := by
  cases l with
  | nil => exact absurd rfl h
  | cons a t => exact List.mem_cons_self a t

/-- The marks of the consolidated records are exactly the groupby keys. -/
theorem consolidate_data_marks (d : GlobalDefaults) (rows : List Row) :
    (consolidate_data d rows).map (fun rec => rec.mark) = group_keys rows := by
  unfold consolidate_data group_by_mark
  rw [List.map_map, List.map_map]
  exact List.map_id (group_keys rows)

/-- C2: for every shipment row, the effective CBM computed by
`consolidate_data` is the numeric maximum of the measured volume and the weight
divided by the weight rate (via `max`, not branching): for numeric cells it is
`max measured (weight / weight_rate)`; for a row with measured volume zero and
positive weight it is exactly `weight / weight_rate`; and a row with missing
measured volume still gets its effective CBM from the weight. -/
theorem c2_effective_cbm (wr : ℚ) (r : Row) (hwr : 0 < wr) :
    (∀ m w, r.measCbm = Cell.num m → r.weightKg = Cell.num w →
        actual_cbm wr r = some (max m (w / wr))) ∧
    (∀ w, r.measCbm = Cell.num 0 → r.weightKg = Cell.num w → 0 < w →
        actual_cbm wr r = some (w / wr)) ∧
    (∀ w, r.measCbm = Cell.missing → r.weightKg = Cell.num w →
        actual_cbm wr r = some (w / wr)) := by
  refine ⟨?_, ?_, ?_⟩
  · intro m w hm hw
    simp [actual_cbm, weight_cbm, hm, hw, Cell.toNum, maxSkipNA]
  · intro w hm hw hwpos
    have hdiv : 0 < w / wr := div_pos hwpos hwr
    simp [actual_cbm, weight_cbm, hm, hw, Cell.toNum, maxSkipNA,
      max_eq_right (le_of_lt hdiv)]
  · intro w hm hw
    simp [actual_cbm, weight_cbm, hm, hw, Cell.toNum, maxSkipNA]

/-- Witness for C2 at `weight_rate = 5`, measured volume `0`, weight `10`. -/
theorem c2_effective_cbm_witness : actual_cbm 5 rowBase = some (10 / 5) :=
  (c2_effective_cbm 5 rowBase (by norm_num)).2.1 10 rfl rfl (by norm_num)

/-- C1: the charge policy of `consolidate_data`.  Below the 0.05 CBM threshold
the calculated charges and the applied rate are the flat 10.00 and the flat-rate
flag reads `"Yes"`, whatever `per_charge_rate` is; at or above the threshold the
calculated charges are the sum over the group of effective CBM times
`per_charge_rate` (equivalently, in exact arithmetic, total CBM times the
rate), the applied rate is `per_charge_rate`, and the flag reads `"No"`.  The
`weight_rate ≠ 0` hypothesis keeps the `ℚ` embedding faithful to the float
division in the source. -/
theorem c1_charge_policy (d : GlobalDefaults) (customer : String) (g : List Row)
    (_hwr : group_weight_rate d g ≠ 0) :
    (total_cbm (group_weight_rate d g) g < 1/20 →
        (consolidate_group d customer g).calculatedCharges = 10 ∧
        rate_applied d g = 10 ∧
        (consolidate_group d customer g).flatRateApplied = "Yes") ∧
    (1/20 ≤ total_cbm (group_weight_rate d g) g →
        (consolidate_group d customer g).calculatedCharges =
          sumSkipNA (g.map (fun r => (actual_cbm (group_weight_rate d g) r).map
            (fun c => c * group_per_charge d g))) ∧
        (consolidate_group d customer g).calculatedCharges =
          total_cbm (group_weight_rate d g) g * group_per_charge d g ∧
        rate_applied d g = group_per_charge d g ∧
        (consolidate_group d customer g).flatRateApplied = "No") := by
  constructor
  · intro h
    refine ⟨?_, ?_, ?_⟩
    · show calculated_charges d g = 10
      rw [calculated_charges, if_pos h]
    · rw [rate_applied, if_pos h]
    · show (if total_cbm (group_weight_rate d g) g < 1/20 then "Yes" else "No") = "Yes"
      rw [if_pos h]
  · intro h
    have hlt : ¬(total_cbm (group_weight_rate d g) g < 1/20) := not_lt.mpr h
    refine ⟨?_, ?_, ?_, ?_⟩
    · show calculated_charges d g = _
      rw [calculated_charges, if_neg hlt]
    · show calculated_charges d g = _
      rw [calculated_charges, if_neg hlt]
      have hmm : g.map (fun r => (actual_cbm (group_weight_rate d g) r).map
          (fun c => c * group_per_charge d g)) =
          (g.map (actual_cbm (group_weight_rate d g))).map
            (fun o => o.map (fun c => c * group_per_charge d g)) := by
        rw [List.map_map]
        rfl
      rw [hmm, sumSkipNA_map_mul]
      rfl
    · rw [rate_applied, if_neg hlt]
    · show (if total_cbm (group_weight_rate d g) g < 1/20 then "Yes" else "No") = "No"
      rw [if_neg hlt]

/-- Witness for C1 in the at-or-above-threshold branch: the single sample row
has effective CBM 2 ≥ 0.05. -/
theorem c1_charge_policy_witness :
    (consolidate_group defaultsOff "M" [rowBase]).calculatedCharges =
      sumSkipNA ([rowBase].map (fun r =>
        (actual_cbm (group_weight_rate defaultsOff [rowBase]) r).map
          (fun c => c * group_per_charge defaultsOff [rowBase]))) ∧
    (consolidate_group defaultsOff "M" [rowBase]).calculatedCharges =
      total_cbm (group_weight_rate defaultsOff [rowBase]) [rowBase] *
        group_per_charge defaultsOff [rowBase] ∧
    rate_applied defaultsOff [rowBase] = group_per_charge defaultsOff [rowBase] ∧
    (consolidate_group defaultsOff "M" [rowBase]).flatRateApplied = "No" :=
  (c1_charge_policy defaultsOff "M" [rowBase]
      (by norm_num [group_weight_rate, defaultsOff, rowBase, List.headI])).2
    (by norm_num [total_cbm, actual_cbm, weight_cbm, maxSkipNA, sumSkipNA, Cell.toNum,
      group_weight_rate, defaultsOff, rowBase, List.headI, List.filterMap_cons])

/-- C3: `total_charges` is `calculated_charges` plus the customer's parking
charge, taken once from the group's first row, whatever the group size and in
both charge branches. -/
theorem c3_total_charges (d : GlobalDefaults) (customer : String) (r0 : Row)
    (rest : List Row) (hd : d.applied = false) :
    (consolidate_group d customer (r0 :: rest)).totalChargesSum =
      (consolidate_group d customer (r0 :: rest)).calculatedCharges +
        r0.parkingCharges := by
  simp [consolidate_group, group_parking, hd, List.headI]

/-- Witness for C3 on a two-row group: parking is added once, not twice. -/
theorem c3_total_charges_witness :
    defaultsOff.applied = false ∧
      (consolidate_group defaultsOff "M" (rowBase :: [rowBase])).totalChargesSum =
        (consolidate_group defaultsOff "M" (rowBase :: [rowBase])).calculatedCharges +
          rowBase.parkingCharges :=
  ⟨rfl, c3_total_charges defaultsOff "M" rowBase [rowBase] rfl⟩

/-- C8: consolidation is deterministic and idempotent — the embedding makes all
session state an explicit argument, so equal rows and equal rate configuration
give equal records, formatted strings included. -/
theorem c8_idempotent (d d2 : GlobalDefaults) (rows rows2 : List Row)
    (hd : d = d2) (hr : rows = rows2) :
    consolidate_data d rows = consolidate_data d2 rows2 := by
  subst hd
  subst hr
  rfl

/-- Witness for C8 at a concrete input. -/
theorem c8_idempotent_witness :
    defaultsOff = defaultsOff ∧ [rowBase] = [rowBase] ∧
      consolidate_data defaultsOff [rowBase] = consolidate_data defaultsOff [rowBase] :=
  ⟨rfl, rfl, c8_idempotent defaultsOff defaultsOff [rowBase] [rowBase] rfl rfl⟩

/-- C10: with global defaults not applied, the three rates come from the
group's first row, as do contact, cargo and tracking numbers and terms; and
replacing those fields on every later row changes nothing — conflicting values
on later rows are silently ignored. -/
theorem c10_first_row_precedence (d : GlobalDefaults) (customer : String) (r0 : Row)
    (rest : List Row) (hd : d.applied = false) :
    group_per_charge d (r0 :: rest) = r0.perCharges ∧
    group_parking d (r0 :: rest) = r0.parkingCharges ∧
    group_weight_rate d (r0 :: rest) = r0.weightRate ∧
    (consolidate_group d customer (r0 :: rest)).contactNumber = r0.contactNumber ∧
    (consolidate_group d customer (r0 :: rest)).cargoNumber = r0.cargoNumber ∧
    (consolidate_group d customer (r0 :: rest)).trackingNumber = r0.trackingNumber ∧
    (consolidate_group d customer (r0 :: rest)).terms = r0.terms ∧
    consolidate_group d customer (r0 :: rest.map scrub_rates) =
      consolidate_group d customer (r0 :: rest) := by
  refine ⟨by simp [group_per_charge, hd], by simp [group_parking, hd],
    by simp [group_weight_rate, hd], rfl, rfl, rfl, rfl, ?_⟩
  simp only [consolidate_group, total_cbm, total_qty, calculated_charges, rate_applied,
    group_per_charge, group_parking, group_weight_rate, List.map_cons, List.map_map,
    List.headI]
  rfl

/-- Witness for C10: a later row carrying a conflicting rate is ignored. -/
theorem c10_first_row_precedence_witness :
    group_per_charge defaultsOff (rowBase :: [{ rowBase with perCharges := 999 }]) =
      rowBase.perCharges :=
  (c10_first_row_precedence defaultsOff "M" rowBase
    [{ rowBase with perCharges := 999 }] rfl).1

/-- C4, counterexample to the claim as stated: `consolidate_data` contains no
`InvalidRateConfig` condition at all.  On a group whose second row carries
`weight_rate = 0`, positive weight and zero measured volume, consolidation does
not fail for that customer: it takes the first row's rate (5) and emits one
ordinary record with charges 4 CBM × 50 = 200. -/
theorem c4_counterexample :
    (consolidate_data defaultsOff
        [rowBase, { rowBase with weightRate := 0 }]).length = 1 ∧
    (consolidate_data defaultsOff
        [rowBase, { rowBase with weightRate := 0 }]).headI.totalChargesSum = 200 := by
  constructor
  · rfl
  · norm_num [consolidate_data, group_by_mark, group_keys, insortKey, consolidate_group,
      total_cbm, calculated_charges, group_per_charge, group_parking, group_weight_rate,
      actual_cbm, weight_cbm, maxSkipNA, sumSkipNA, Cell.toNum, rowBase, defaultsOff,
      List.headI, List.filterMap_cons]

/-- C4, amended: the pipeline never lets a zero `weight_rate` reach the
division.  `main` replaces every zero `Weight Rate` with 1.0 before
consolidation, so each preprocessed row — and hence the first-row rate used for
any group drawn from preprocessed rows — is nonzero; no error condition is
raised and other customers are unaffected. -/
theorem c4_zero_weight_rate_defaulted (d : GlobalDefaults) (rows : List Row)
    (hd : d.applied = false) :
    (∀ r ∈ replace_zero_weight_rate rows, r.weightRate ≠ 0) ∧
    (∀ g : List Row, g ≠ [] → (∀ r ∈ g, r ∈ replace_zero_weight_rate rows) →
      group_weight_rate d g ≠ 0) := by
  have h1 : ∀ r ∈ replace_zero_weight_rate rows, r.weightRate ≠ 0 := by
    intro r hr
    unfold replace_zero_weight_rate at hr
    rcases List.mem_map.mp hr with ⟨s, _, rfl⟩
    by_cases h : s.weightRate = 0
    · simp [h]
    · simp [h]
  refine ⟨h1, ?_⟩
  intro g hg hsub
  have hmem : g.headI ∈ g := headI_mem_of_ne_nil g hg
  have := h1 g.headI (hsub g.headI hmem)
  simpa [group_weight_rate, hd] using this

/-- Witness for C4 (amended): the zero-rate row is replaced by rate 1. -/
theorem c4_zero_weight_rate_defaulted_witness :
    (replace_zero_weight_rate [{ rowBase with weightRate := 0 }]).headI.weightRate ≠ 0 :=
  (c4_zero_weight_rate_defaulted defaultsOff [{ rowBase with weightRate := 0 }] rfl).1
    (replace_zero_weight_rate [{ rowBase with weightRate := 0 }]).headI
    (headI_mem_of_ne_nil _ (by simp [replace_zero_weight_rate]))

/-- C5, counterexample to the claim as stated: a missing quantity cell is
rendered as `"nan"` in the multi-line projection, not as an empty string. -/
theorem c5_counterexample :
    (consolidate_group defaultsOff "M"
        [{ rowBase with qty := Cell.missing }]).qtyLines = "nan" ∧
    ("nan" : String) ≠ "" := by
  constructor
  · rfl
  · decide

/-- Getting-or-zero through the optional multiplication. -/
theorem getD_map_mul (o : Option ℚ) (c : ℚ) :
    (o.map (fun x => x * c)).getD 0 = o.getD 0 * c := by
  cases o with
  | none => simp
  | some a => rfl

/-- Per-row effective CBM is unchanged when missing cells are replaced by zero,
provided the present values are nonnegative and the weight rate positive. -/
theorem actual_cbm_fill_getD (wr : ℚ) (r : Row) (hwr : 0 < wr)
    (h1 : cellNonneg r.measCbm) (h2 : cellNonneg r.weightKg) :
    (actual_cbm wr (fill_zero_row r)).getD 0 = (actual_cbm wr r).getD 0 := by
  rcases hm : r.measCbm with q | _ <;> rcases hw : r.weightKg with w | _ <;>
    rw [hm] at h1 <;> rw [hw] at h2 <;>
    simp only [cellNonneg] at h1 h2 <;>
    simp only [fill_zero_row, actual_cbm, weight_cbm, fillZeroCell, hm, hw, Cell.toNum,
      maxSkipNA, Option.map_some', Option.map_none', Option.getD_some, Option.getD_none]
  · rw [zero_div]
    exact max_eq_left h1
  · exact max_eq_right (div_nonneg h2 (le_of_lt hwr))
  · rw [zero_div]
    exact max_self 0

/-- Group totals are unchanged when missing cells are replaced by zero. -/
theorem total_cbm_fill (wr : ℚ) (g : List Row) (hwr : 0 < wr)
    (hnn : ∀ r ∈ g, cellNonneg r.measCbm ∧ cellNonneg r.weightKg) :
    total_cbm wr (g.map fill_zero_row) = total_cbm wr g := by
  unfold total_cbm
  rw [sumSkipNA_eq_sum_getD, sumSkipNA_eq_sum_getD, List.map_map, List.map_map,
    List.map_map]
  exact congrArg List.sum (List.map_congr_left (fun r hr =>
    actual_cbm_fill_getD wr r hwr (hnn r hr).1 (hnn r hr).2))

theorem total_qty_fill (g : List Row) :
    total_qty (g.map fill_zero_row) = total_qty g := by
  unfold total_qty
  rw [sumSkipNA_eq_sum_getD, sumSkipNA_eq_sum_getD, List.map_map, List.map_map,
    List.map_map]
  refine congrArg List.sum (List.map_congr_left (fun r _ => ?_))
  show ((fillZeroCell r.qty).toNum).getD 0 = (r.qty.toNum).getD 0
  cases r.qty <;> rfl

/-- The group rates read from the first row are unchanged by zero-filling. -/
theorem group_rates_fill (d : GlobalDefaults) (g : List Row) :
    group_per_charge d (g.map fill_zero_row) = group_per_charge d g ∧
    group_parking d (g.map fill_zero_row) = group_parking d g ∧
    group_weight_rate d (g.map fill_zero_row) = group_weight_rate d g := by
  refine ⟨?_, ?_, ?_⟩ <;> cases g <;> rfl

/-- C5, amended: a customer group with missing quantity, weight or volume cells
is not aborted — `consolidate_data` is total on such groups, and the missing
values contribute exactly zero to the aggregated totals (quantity, CBM, charges)
— but the corresponding multi-line projection line shows `"nan"`, Python's
string for `NaN`, not an empty string. -/
theorem c5_missing_treated_as_zero (d : GlobalDefaults) (customer : String)
    (g : List Row) (hwr : 0 < group_weight_rate d g)
    (hnn : ∀ r ∈ g, cellNonneg r.measCbm ∧ cellNonneg r.weightKg) :
    (consolidate_group d customer (g.map fill_zero_row)).numTotalCbm =
      (consolidate_group d customer g).numTotalCbm ∧
    (consolidate_group d customer (g.map fill_zero_row)).calculatedCharges =
      (consolidate_group d customer g).calculatedCharges ∧
    (consolidate_group d customer (g.map fill_zero_row)).totalChargesSum =
      (consolidate_group d customer g).totalChargesSum ∧
    (consolidate_group d customer (g.map fill_zero_row)).totalQtyF =
      (consolidate_group d customer g).totalQtyF ∧
    Cell.missing.pyStr = "nan" := by
  rcases group_rates_fill d g with ⟨hpc, hpk, hwr2⟩
  have hcbm : total_cbm (group_weight_rate d (g.map fill_zero_row)) (g.map fill_zero_row) =
      total_cbm (group_weight_rate d g) g := by
    rw [hwr2]
    exact total_cbm_fill _ g hwr hnn
  have hcc : calculated_charges d (g.map fill_zero_row) = calculated_charges d g := by
    unfold calculated_charges
    rw [hcbm]
    by_cases hb : total_cbm (group_weight_rate d g) g < 1/20
    · rw [if_pos hb, if_pos hb]
    · rw [if_neg hb, if_neg hb]
      rw [hwr2, hpc]
      rw [sumSkipNA_eq_sum_getD, sumSkipNA_eq_sum_getD, List.map_map, List.map_map,
        List.map_map]
      refine congrArg List.sum (List.map_congr_left (fun r hr => ?_))
      show ((actual_cbm (group_weight_rate d g) (fill_zero_row r)).map
          (fun c => c * group_per_charge d g)).getD 0 =
        ((actual_cbm (group_weight_rate d g) r).map
          (fun c => c * group_per_charge d g)).getD 0
      rw [getD_map_mul, getD_map_mul,
        actual_cbm_fill_getD _ r hwr (hnn r hr).1 (hnn r hr).2]
  refine ⟨hcbm, hcc, ?_, ?_, rfl⟩
  · show calculated_charges d (g.map fill_zero_row) + group_parking d (g.map fill_zero_row) =
      calculated_charges d g + group_parking d g
    rw [hcc, hpk]
  · show fmt2 (total_qty (g.map fill_zero_row)) = fmt2 (total_qty g)
    rw [total_qty_fill]

/-- Witness for C5 (amended) on a group whose single row misses all three
numeric cells. -/
theorem c5_missing_treated_as_zero_witness :
    (consolidate_group defaultsOff "M"
        ([{ rowBase with qty := Cell.missing }].map fill_zero_row)).numTotalCbm =
      (consolidate_group defaultsOff "M"
        [{ rowBase with qty := Cell.missing }]).numTotalCbm ∧
    (consolidate_group defaultsOff "M"
        ([{ rowBase with qty := Cell.missing }].map fill_zero_row)).calculatedCharges =
      (consolidate_group defaultsOff "M"
        [{ rowBase with qty := Cell.missing }]).calculatedCharges ∧
    (consolidate_group defaultsOff "M"
        ([{ rowBase with qty := Cell.missing }].map fill_zero_row)).totalChargesSum =
      (consolidate_group defaultsOff "M"
        [{ rowBase with qty := Cell.missing }]).totalChargesSum ∧
    (consolidate_group defaultsOff "M"
        ([{ rowBase with qty := Cell.missing }].map fill_zero_row)).totalQtyF =
      (consolidate_group defaultsOff "M"
        [{ rowBase with qty := Cell.missing }]).totalQtyF ∧
    Cell.missing.pyStr = "nan" :=
  c5_missing_treated_as_zero defaultsOff "M" [{ rowBase with qty := Cell.missing }]
    (by norm_num [group_weight_rate, defaultsOff, rowBase, List.headI])
    (by intro r hr
        rcases List.mem_singleton.mp hr with rfl
        exact ⟨by norm_num [rowBase, cellNonneg], by norm_num [rowBase, cellNonneg]⟩)

/-- C6, counterexample to the claim as stated: two rows encountered in the
order B then A are consolidated into records in the order A then B — pandas
`groupby` sorts the keys. -/
theorem c6_counterexample :
    (consolidate_data defaultsOff
        [{ rowBase with mark := "B" }, { rowBase with mark := "A" }]).map
      (fun rec => rec.mark) = ["A", "B"] ∧
    (["A", "B"] : List String) ≠ ["B", "A"] := by
  constructor
  · rw [consolidate_data_marks]
    rfl
  · decide

/-- C6, amended: `consolidate_data` emits exactly one record per distinct
customer mark, with the rows of each customer kept in original order inside the
group, but the records come out in ascending lexicographic order of
`customer_mark` (the pandas `groupby` default), not in first-seen order:
the emitted marks are the groupby keys, which are strictly sorted, duplicate
free, and exactly the distinct marks of the input rows. -/
theorem c6_sorted_not_first_seen (d : GlobalDefaults) (rows : List Row) :
    (consolidate_data d rows).map (fun rec => rec.mark) = group_keys rows ∧
    (group_keys rows).Pairwise strLtP ∧
    (group_keys rows).Nodup ∧
    ∀ m, m ∈ group_keys rows ↔ m ∈ rows.map (fun r => r.mark) :=
  ⟨consolidate_data_marks d rows, group_keys_pairwise rows, group_keys_nodup rows,
    group_keys_mem rows⟩

/-- Witness for C6 (amended) at a concrete one-row input. -/
theorem c6_sorted_not_first_seen_witness :
    (consolidate_data defaultsOff [rowBase]).map (fun rec => rec.mark) =
      group_keys [rowBase] ∧
    (group_keys [rowBase]).Pairwise strLtP ∧
    (group_keys [rowBase]).Nodup ∧
    ∀ m, m ∈ group_keys [rowBase] ↔ m ∈ [rowBase].map (fun r => r.mark) :=
  c6_sorted_not_first_seen defaultsOff [rowBase]

/-- C7, counterexample to the claim as stated: a receipt number that itself
contains a newline makes the receipt projection of a one-row group split into
two lines. -/
theorem c7_counterexample :
    (sSplitNL (consolidate_group defaultsOff "M"
        [{ rowBase with receiptNo := "A\nB" }]).receiptNo).length = 2 ∧
    ([{ rowBase with receiptNo := "A\nB" }] : List Row).length = 1 ∧
    (2 : Nat) ≠ 1 := by
  refine ⟨rfl, rfl, by decide⟩

/-- C7, amended: provided no constituent row's receipt number or description
contains a newline character (the numeric projections never do), each of the
five multi-line projection fields splits back into exactly one line per
constituent row, with line `i` the projection of row `i` in original order. -/
theorem c7_multiline_projections (d : GlobalDefaults) (customer : String) (r0 : Row)
    (rest : List Row)
    (h : ∀ r ∈ r0 :: rest, hasNL r.receiptNo = false ∧ hasNL r.description = false) :
    sSplitNL (consolidate_group d customer (r0 :: rest)).receiptNo =
      (r0 :: rest).map (fun r => r.receiptNo) ∧
    sSplitNL (consolidate_group d customer (r0 :: rest)).qtyLines =
      (r0 :: rest).map (fun r => r.qty.pyStr) ∧
    sSplitNL (consolidate_group d customer (r0 :: rest)).description =
      (r0 :: rest).map (fun r => r.description) ∧
    sSplitNL (consolidate_group d customer (r0 :: rest)).cbmLines =
      (r0 :: rest).map (fun r => r.cbm.pyStr) ∧
    sSplitNL (consolidate_group d customer (r0 :: rest)).weightKgLines =
      (r0 :: rest).map (fun r => r.weightKg.pyStr) ∧
    (sSplitNL (consolidate_group d customer (r0 :: rest)).receiptNo).length =
      (r0 :: rest).length := by
  have h1 : sSplitNL (consolidate_group d customer (r0 :: rest)).receiptNo =
      (r0 :: rest).map (fun r => r.receiptNo) := by
    refine sSplitNL_sJoinNL _ (by simp) ?_
    intro s hs
    rcases List.mem_map.mp hs with ⟨r, hr, rfl⟩
    exact (h r hr).1
  have h2 : sSplitNL (consolidate_group d customer (r0 :: rest)).qtyLines =
      (r0 :: rest).map (fun r => r.qty.pyStr) := by
    refine sSplitNL_sJoinNL _ (by simp) ?_
    intro s hs
    rcases List.mem_map.mp hs with ⟨r, _, rfl⟩
    exact hasNL_pyStr r.qty
  have h3 : sSplitNL (consolidate_group d customer (r0 :: rest)).description =
      (r0 :: rest).map (fun r => r.description) := by
    refine sSplitNL_sJoinNL _ (by simp) ?_
    intro s hs
    rcases List.mem_map.mp hs with ⟨r, hr, rfl⟩
    exact (h r hr).2
  have h4 : sSplitNL (consolidate_group d customer (r0 :: rest)).cbmLines =
      (r0 :: rest).map (fun r => r.cbm.pyStr) := by
    refine sSplitNL_sJoinNL _ (by simp) ?_
    intro s hs
    rcases List.mem_map.mp hs with ⟨r, _, rfl⟩
    exact hasNL_pyStr r.cbm
  have h5 : sSplitNL (consolidate_group d customer (r0 :: rest)).weightKgLines =
      (r0 :: rest).map (fun r => r.weightKg.pyStr) := by
    refine sSplitNL_sJoinNL _ (by simp) ?_
    intro s hs
    rcases List.mem_map.mp hs with ⟨r, _, rfl⟩
    exact hasNL_pyStr r.weightKg
  refine ⟨h1, h2, h3, h4, h5, ?_⟩
  rw [h1]
  exact List.length_map _ _

/-- Witness for C7 (amended) on the sample one-row group. -/
theorem c7_multiline_projections_witness :
    sSplitNL (consolidate_group defaultsOff "M" (rowBase :: [])).receiptNo =
      (rowBase :: ([] : List Row)).map (fun r => r.receiptNo) ∧
    sSplitNL (consolidate_group defaultsOff "M" (rowBase :: [])).qtyLines =
      (rowBase :: ([] : List Row)).map (fun r => r.qty.pyStr) ∧
    sSplitNL (consolidate_group defaultsOff "M" (rowBase :: [])).description =
      (rowBase :: ([] : List Row)).map (fun r => r.description) ∧
    sSplitNL (consolidate_group defaultsOff "M" (rowBase :: [])).cbmLines =
      (rowBase :: ([] : List Row)).map (fun r => r.cbm.pyStr) ∧
    sSplitNL (consolidate_group defaultsOff "M" (rowBase :: [])).weightKgLines =
      (rowBase :: ([] : List Row)).map (fun r => r.weightKg.pyStr) ∧
    (sSplitNL (consolidate_group defaultsOff "M" (rowBase :: [])).receiptNo).length =
      (rowBase :: ([] : List Row)).length :=
  c7_multiline_projections defaultsOff "M" rowBase []
    (by intro r hr
        rcases List.mem_singleton.mp hr with rfl
        exact ⟨by decide, by decide⟩)

/-- Sequencing a list of options that are all `some`. -/
theorem seqOpt_eq_some {α β : Type} (l : List β) (f : β → Option α) (gfun : β → α)
    (h : ∀ x ∈ l, f x = some (gfun x)) : seqOpt (l.map f) = some (l.map gfun) := by
  induction l with
  | nil => rfl
  | cons x t ih =>
      rw [List.map_cons, h x (List.mem_cons_self x t), seqOpt,
        ih (fun y hy => h y (List.mem_cons_of_mem x hy)), Option.map_some', List.map_cons]

/-- In-bounds `get?` returns the default-irrelevant `getD` value. -/
theorem get?_eq_some_getD {α : Type} (l : List α) (i : Nat) (d : α) (h : i < l.length) :
    l.get? i = some (l.getD i d) := by
  induction l generalizing i with
  | nil => cases h
  | cons a t ih =>
      cases i with
      | zero => rfl
      | succ j => exact ih j (Nat.lt_of_succ_lt_succ h)

theorem safe_float_empty : safe_float "" = 0 := rfl

theorem sJoinNL_singleton (s : String) : sJoinNL [s] = s := rfl

/-- A join of at least two parts contains a newline. -/
theorem hasNL_sJoinNL_two (s0 s1 : String) (rest : List String) :
    hasNL (sJoinNL (s0 :: s1 :: rest)) = true := by
  rw [hasNL_iff]
  show '\n' ∈ joinNLCh (s0.data :: s1.data :: rest.map String.data)
  rw [joinNLCh]
  exact List.mem_append.mpr (Or.inr (List.mem_cons_self _ _))

/-- The `CBM` item cell of the export on a newline-join: line `i`. -/
theorem item_cell_cbm_sJoinNL (L : List String) (hne : L ≠ [])
    (hnl : ∀ s ∈ L, hasNL s = false) (i : Nat) (hi : i < L.length) :
    item_cell_cbm (sJoinNL L) i = some (L.getD i "") := by
  cases L with
  | nil => exact absurd rfl hne
  | cons s0 rest =>
      cases rest with
      | nil =>
          rcases Nat.lt_one_iff.mp (by simpa using hi) with rfl
          rw [sJoinNL_singleton]
          unfold item_cell_cbm
          rw [hnl s0 (List.mem_cons_self _ _)]
          rfl
      | cons s1 rest2 =>
          unfold item_cell_cbm
          rw [hasNL_sJoinNL_two s0 s1 rest2]
          rw [if_pos rfl]
          rw [sSplitNL_sJoinNL _ hne hnl]
          exact get?_eq_some_getD _ i "" hi

/-- `items_of` distributes over append. -/
theorem items_of_append (a b : List PLEntry) :
    items_of (a ++ b) = items_of a ++ items_of b := by
  unfold items_of
  rw [List.filterMap_append]

/-- The item rows of a pure item list. -/
theorem items_of_map_item (l : List PLItem) : items_of (l.map PLEntry.item) = l := by
  induction l with
  | nil => rfl
  | cons a t ih =>
      simp only [items_of, List.map_cons, List.filterMap_cons] at ih ⊢
      rw [ih]

/-- A subtotal (or empty) tail contributes no item rows. -/
theorem items_of_subtotal_tail (m : String) (q1 q2 q3 q4 q5 : ℚ) (b : Bool) :
    items_of (if b = true then [PLEntry.subtotal m q1 q2 q3 q4 q5] else []) = [] := by
  cases b <;> rfl

/-- `items_of` over a flattened list of blocks. -/
theorem items_of_flatten (L : List (List PLEntry)) :
    items_of L.flatten = (L.map items_of).flatten := by
  induction L with
  | nil => rfl
  | cons a t ih =>
      rw [List.flatten_cons, items_of_append, ih, List.map_cons, List.flatten_cons]

/-- A column sum over flattened item blocks is the sum of the blocks' sums. -/
theorem sumf_flatten (f : PLItem → ℚ) (L : List (List PLItem)) :
    ((L.flatten).map f).sum = (L.map (fun items => (items.map f).sum)).sum := by
  induction L with
  | nil => rfl
  | cons a t ih =>
      rw [List.flatten_cons, List.map_append, List.sum_append, ih, List.map_cons,
        List.sum_cons]

/-- The item rows of an expected customer block. -/
theorem items_of_expected_block (d : GlobalDefaults) (m : String) (g : List Row) :
    items_of (expected_block d m g) =
      (List.range g.length).map (expected_item d m g) := by
  unfold expected_block
  rw [items_of_append, items_of_map_item]
  split
  · rw [show items_of [PLEntry.subtotal m _ _ _ _ _] = [] from rfl, List.append_nil]
  · rw [show items_of ([] : List PLEntry) = [] from rfl, List.append_nil]

/-- With pairwise-distinct marks, the `sort=False` groupby keys are the marks
in order. -/
theorem keys_first_seen_nodup_eq (recs : List Record)
    (hnd : (recs.map (fun r => r.mark)).Nodup) :
    keys_first_seen recs = recs.map (fun r => r.mark) := by
  suffices h : ∀ (l : List Record) (acc : List String),
      (l.map (fun r => r.mark)).Nodup →
      (∀ r ∈ l, acc.contains r.mark = false) →
      l.foldl (fun a r => if a.contains r.mark then a else a ++ [r.mark]) acc =
        acc ++ l.map (fun r => r.mark) by
    have h0 := h recs [] hnd (fun r _ => rfl)
    rw [List.nil_append] at h0
    exact h0
  intro l
  induction l with
  | nil =>
      intro acc _ _
      simp
  | cons r rs ih =>
      intro acc hnd hacc
      simp only [List.map_cons, List.nodup_cons] at hnd
      simp only [List.foldl_cons]
      rw [hacc r (List.mem_cons_self r rs), if_neg (by simp)]
      rw [ih (acc ++ [r.mark]) hnd.2 ?_]
      · rw [List.append_assoc, List.singleton_append, List.map_cons]
      · intro x hx
        have hx1 : acc.contains x.mark = false := hacc x (List.mem_cons_of_mem r hx)
        have hx2 : x.mark ≠ r.mark := by
          intro he
          exact hnd.1 (he ▸ List.mem_map_of_mem _ hx)
        rw [Bool.eq_false_iff]
        intro hcon
        rcases List.mem_append.mp (List.elem_iff.mp hcon) with hm | hm
        · rw [Bool.eq_false_iff] at hx1
          exact hx1 (List.elem_iff.mpr hm)
        · exact hx2 (List.mem_singleton.mp hm)

/-- With pairwise-distinct marks, filtering on one member's mark keeps exactly
that member. -/
theorem filter_eq_singleton_of_nodup (recs : List Record)
    (hnd : (recs.map (fun r => r.mark)).Nodup) (r : Record) (hr : r ∈ recs) :
    recs.filter (fun x => x.mark = r.mark) = [r] := by
  induction recs with
  | nil => cases hr
  | cons a t ih =>
      simp only [List.map_cons, List.nodup_cons] at hnd
      rcases List.mem_cons.mp hr with rfl | hrt
      · rw [List.filter_cons_of_pos (by simp)]
        have ht : t.filter (fun x => x.mark = r.mark) = [] := by
          refine List.filter_eq_nil_iff.mpr (fun x hx => ?_)
          simp only [decide_eq_true_eq]
          intro he
          exact hnd.1 (he ▸ List.mem_map_of_mem _ hx)
        rw [ht]
      · have hne : ¬(a.mark = r.mark) := by
          intro he
          exact hnd.1 (he ▸ List.mem_map_of_mem _ hrt)
        rw [List.filter_cons_of_neg (by simpa using hne)]
        exact ih hnd.2 hrt

/-- With pairwise-distinct marks, `groupby(sort=False)` yields one singleton
group per record, in order. -/
theorem group_recs_singletons (recs : List Record)
    (hnd : (recs.map (fun r => r.mark)).Nodup) :
    group_recs_by_mark recs = recs.map (fun r => (r.mark, [r])) := by
  unfold group_recs_by_mark
  rw [keys_first_seen_nodup_eq recs hnd, List.map_map]
  exact List.map_congr_left (fun r hr => by
    show (r.mark, recs.filter (fun x => x.mark = r.mark)) = (r.mark, [r])
    rw [filter_eq_singleton_of_nodup recs hnd r hr])

/-- The rows appended for a singleton group. -/
theorem group_entries_singleton (m : String) (rec : Record) (items : List PLItem)
    (h : items_of_record m rec = some items) :
    group_entries m [rec] = some ((items.map PLEntry.item) ++
      (if 1 < items.length then [PLEntry.subtotal m (sum_qty items) (sum_meas items)
        (sum_weight items) (sum_cbm items) (sum_charges items)] else [])) := by
  unfold group_entries
  rw [List.map_singleton, show seqOpt [items_of_record m rec] =
      (items_of_record m rec).map (fun x => [x]) from ?_, h]
  · simp
  · cases items_of_record m rec <;> rfl

theorem pyOrElse_empty (b : String) : pyOrElse "" b = b := rfl

/-- The export's item rows for one consolidated record: exactly one per
constituent row, in order, with the expected cells. -/
theorem items_of_record_consolidate (d : GlobalDefaults) (m : String) (g : List Row)
    (hg : g ≠ [])
    (h : ∀ r ∈ g, hasNL r.receiptNo = false ∧ hasNL r.description = false) :
    items_of_record m (consolidate_group d m g) =
      some ((List.range g.length).map (expected_item d m g)) := by
  have hgl : 1 ≤ g.length := List.length_pos.mpr hg
  have hrecL : ∀ s ∈ g.map (fun r => r.receiptNo), hasNL s = false := by
    intro s hs
    rcases List.mem_map.mp hs with ⟨r, hr, rfl⟩
    exact (h r hr).1
  have hdescL : ∀ s ∈ g.map (fun r => r.description), hasNL s = false := by
    intro s hs
    rcases List.mem_map.mp hs with ⟨r, hr, rfl⟩
    exact (h r hr).2
  have hqtyL : ∀ s ∈ g.map (fun r => r.qty.pyStr), hasNL s = false := by
    intro s hs
    rcases List.mem_map.mp hs with ⟨r, _, rfl⟩
    exact hasNL_pyStr r.qty
  have hcbmL : ∀ s ∈ g.map (fun r => r.cbm.pyStr), hasNL s = false := by
    intro s hs
    rcases List.mem_map.mp hs with ⟨r, _, rfl⟩
    exact hasNL_pyStr r.cbm
  have hwtL : ∀ s ∈ g.map (fun r => r.weightKg.pyStr), hasNL s = false := by
    intro s hs
    rcases List.mem_map.mp hs with ⟨r, _, rfl⟩
    exact hasNL_pyStr r.weightKg
  have hneR : g.map (fun r => r.receiptNo) ≠ [] := by simpa using hg
  have hcount : countNL (consolidate_group d m g).receiptNo + 1 = g.length := by
    have hc := countNL_sJoinNL (g.map (fun r => r.receiptNo)) hneR hrecL
    rw [List.length_map] at hc
    show countNL (sJoinNL (g.map (fun r => r.receiptNo))) + 1 = g.length
    rw [hc]
    omega
  have e1 : sSplitNL (consolidate_group d m g).receiptNo =
      g.map (fun r => r.receiptNo) :=
    sSplitNL_sJoinNL _ hneR hrecL
  have e2 : sSplitNL (consolidate_group d m g).description =
      g.map (fun r => r.description) :=
    sSplitNL_sJoinNL _ (by simpa using hg) hdescL
  have e3 : sSplitNL (consolidate_group d m g).qtyLines =
      g.map (fun r => r.qty.pyStr) :=
    sSplitNL_sJoinNL _ (by simpa using hg) hqtyL
  have e4 : sSplitNL (consolidate_group d m g).weightKgLines =
      g.map (fun r => r.weightKg.pyStr) :=
    sSplitNL_sJoinNL _ (by simpa using hg) hwtL
  unfold items_of_record
  rw [hcount]
  apply seqOpt_eq_some
  intro i hi
  have hi2 : i < g.length := List.mem_range.mp hi
  unfold item_at
  rw [show (consolidate_group d m g).cbmLines = sJoinNL (g.map (fun r => r.cbm.pyStr))
    from rfl]
  rw [item_cell_cbm_sJoinNL _ (by simpa using hg) hcbmL i (by simpa using hi2)]
  rw [show pl_weight_rate (consolidate_group d m g) = 0 from rfl]
  rw [show item_weight_cbm (sSplitNL (consolidate_group d m g).weightKgLines) 0 i =
    some "" from by unfold item_weight_cbm; rw [if_pos rfl]]
  rw [Option.some_bind, Option.map_some']
  rw [show pyOrElse "" (sJoinNL (g.map (fun r => r.cbm.pyStr))) =
    (consolidate_group d m g).cbmLines from rfl]
  rw [show sSplitNL (consolidate_group d m g).cbmLines =
    g.map (fun r => r.cbm.pyStr) from sSplitNL_sJoinNL _ (by simpa using hg) hcbmL]
  rw [e1, e2, e3, e4]
  rfl

/-- The whole export body on consolidated records: one expected block per
customer, in groupby key order. -/
theorem pl_body_consolidate (d : GlobalDefaults) (rows : List Row)
    (h : ∀ r ∈ rows, hasNL r.receiptNo = false ∧ hasNL r.description = false) :
    pl_body (consolidate_data d rows) =
      some (((group_by_mark rows).map (fun p => expected_block d p.1 p.2)).flatten) := by
  have hnd : ((consolidate_data d rows).map (fun r => r.mark)).Nodup := by
    rw [consolidate_data_marks]
    exact group_keys_nodup rows
  unfold pl_body
  rw [group_recs_singletons _ hnd, List.map_map]
  show (seqOpt (((group_by_mark rows).map (fun p => consolidate_group d p.1 p.2)).map
    _)).map List.flatten = _
  rw [List.map_map]
  have hblocks : ∀ p ∈ group_by_mark rows,
      group_entries (consolidate_group d p.1 p.2).mark [consolidate_group d p.1 p.2] =
        some (expected_block d p.1 p.2) := by
    intro p hp
    have hgne : p.2 ≠ [] := group_nonempty rows p hp
    have hsub : ∀ r ∈ p.2, hasNL r.receiptNo = false ∧ hasNL r.description = false := by
      unfold group_by_mark at hp
      rcases List.mem_map.mp hp with ⟨mm, _, rfl⟩
      intro r hr
      exact h r (List.mem_filter.mp hr).1
    exact group_entries_singleton p.1 (consolidate_group d p.1 p.2) _
      (items_of_record_consolidate d p.1 p.2 hgne hsub)
  have hblocks2 : ∀ p ∈ group_by_mark rows,
      (((fun pr : String × List Record => group_entries pr.1 pr.2) ∘
          (fun r : Record => (r.mark, [r]))) ∘
        (fun p : String × List Row => consolidate_group d p.1 p.2)) p =
        some (expected_block d p.1 p.2) :=
    fun p hp => hblocks p hp
  rw [seqOpt_eq_some (group_by_mark rows)
    (((fun pr : String × List Record => group_entries pr.1 pr.2) ∘
        (fun r : Record => (r.mark, [r]))) ∘
      (fun p : String × List Row => consolidate_group d p.1 p.2))
    (fun p => expected_block d p.1 p.2) hblocks2]
  rfl

/-- C9: the packing-list export of the consolidated records emits, per
customer, exactly one item row per constituent row (mark, rate, total charges
and contact on the first row only, inside `expected_item`), a subtotal row
exactly when the customer has more than one item row, and a single grand-total
row at the very end whose every numeric column is the sum of that column over
all emitted item rows — equivalently, the sum over customers of the
per-customer column sums (the subtotal values, or the single item's values).
Hypotheses: no receipt number or description contains a newline (so the
multi-line fields stay aligned, compare C7), and the numeric cells are numbers
(Python's `float("nan")` would otherwise poison the running totals). -/
theorem c9_packing_list_export (d : GlobalDefaults) (rows : List Row)
    (hNL : ∀ r ∈ rows, hasNL r.receiptNo = false ∧ hasNL r.description = false)
    (_hNum : ∀ r ∈ rows, r.qty.isNum = true ∧ r.measCbm.isNum = true ∧
      r.weightKg.isNum = true ∧ r.cbm.isNum = true) :
    pl_body (consolidate_data d rows) =
      some (((group_by_mark rows).map (fun p => expected_block d p.1 p.2)).flatten) ∧
    export_custom_packing_list (consolidate_data d rows) =
      some ((((group_by_mark rows).map (fun p => expected_block d p.1 p.2)).flatten) ++
        [grand_of (items_of (((group_by_mark rows).map
          (fun p => expected_block d p.1 p.2)).flatten))]) ∧
    (∀ p ∈ group_by_mark rows,
      (items_of (expected_block d p.1 p.2)).length = p.2.length) ∧
    (∀ p ∈ group_by_mark rows,
      (expected_block d p.1 p.2).length =
        p.2.length + (if 1 < p.2.length then 1 else 0)) ∧
    (items_of (((group_by_mark rows).map
      (fun p => expected_block d p.1 p.2)).flatten)).length = rows.length ∧
    sum_qty (items_of (((group_by_mark rows).map
        (fun p => expected_block d p.1 p.2)).flatten)) =
      ((group_by_mark rows).map (fun p =>
        sum_qty (items_of (expected_block d p.1 p.2)))).sum ∧
    sum_meas (items_of (((group_by_mark rows).map
        (fun p => expected_block d p.1 p.2)).flatten)) =
      ((group_by_mark rows).map (fun p =>
        sum_meas (items_of (expected_block d p.1 p.2)))).sum ∧
    sum_weight (items_of (((group_by_mark rows).map
        (fun p => expected_block d p.1 p.2)).flatten)) =
      ((group_by_mark rows).map (fun p =>
        sum_weight (items_of (expected_block d p.1 p.2)))).sum ∧
    sum_cbm (items_of (((group_by_mark rows).map
        (fun p => expected_block d p.1 p.2)).flatten)) =
      ((group_by_mark rows).map (fun p =>
        sum_cbm (items_of (expected_block d p.1 p.2)))).sum ∧
    sum_charges (items_of (((group_by_mark rows).map
        (fun p => expected_block d p.1 p.2)).flatten)) =
      ((group_by_mark rows).map (fun p =>
        sum_charges (items_of (expected_block d p.1 p.2)))).sum := by
  have hbody := pl_body_consolidate d rows hNL
  have hsum : ∀ f : PLItem → ℚ,
      ((items_of (((group_by_mark rows).map
          (fun p => expected_block d p.1 p.2)).flatten)).map f).sum =
        ((group_by_mark rows).map (fun p =>
          ((items_of (expected_block d p.1 p.2)).map f).sum)).sum := by
    intro f
    rw [items_of_flatten, List.map_map, sumf_flatten, List.map_map]
    rfl
  refine ⟨hbody, ?_, ?_, ?_, ?_, hsum _, hsum _, hsum _, hsum _, hsum _⟩
  · unfold export_custom_packing_list
    rw [hbody]
    rfl
  · intro p _
    rw [items_of_expected_block, List.length_map, List.length_range]
  · intro p _
    unfold expected_block
    rw [List.length_append, List.length_map, List.length_map, List.length_range]
    split
    · rfl
    · rfl
  · rw [items_of_flatten, List.map_map]
    have hlen : ((group_by_mark rows).map
        (items_of ∘ fun p => expected_block d p.1 p.2)).flatten.length =
        (((group_by_mark rows).map
          (items_of ∘ fun p => expected_block d p.1 p.2)).map List.length).sum :=
      List.length_flatten _
    rw [hlen, List.map_map]
    have hcongr : (group_by_mark rows).map
        (List.length ∘ (items_of ∘ fun p => expected_block d p.1 p.2)) =
        (group_by_mark rows).map (fun p => p.2.length) :=
      List.map_congr_left (fun p _ => by
        show (items_of (expected_block d p.1 p.2)).length = p.2.length
        rw [items_of_expected_block, List.length_map, List.length_range])
    rw [hcongr, sum_group_sizes]

/-- C9, counterexample to the claim as stated: a consolidated record built
from one constituent row whose receipt number contains a newline makes the
export emit two item rows, because the item count is derived from the newline
count of the receipt projection. -/
theorem c9_counterexample :
    (pl_body (consolidate_data defaultsOff [rowNLCex])).map
      (fun b => (items_of b).length) = some 2 ∧
    ([rowNLCex] : List Row).length = 1 ∧
    (2 : Nat) ≠ 1 := by
  refine ⟨rfl, rfl, by decide⟩

/-- Witness for C9 at the one-row sample input. -/
theorem c9_packing_list_export_witness :
    pl_body (consolidate_data defaultsOff [rowBase]) =
      some (((group_by_mark [rowBase]).map
        (fun p => expected_block defaultsOff p.1 p.2)).flatten) :=
  (c9_packing_list_export defaultsOff [rowBase]
    (by intro r hr
        rcases List.mem_singleton.mp hr with rfl
        exact ⟨by decide, by decide⟩)
    (by intro r hr
        rcases List.mem_singleton.mp hr with rfl
        exact ⟨rfl, rfl, rfl, rfl⟩)).1

end InvoiceApp
